import Mathlib

/-!
Verification development for the PDF line-item parser (`src/main.py`).

The core of the program is a stateful scan over the text lines of each PDF
page (`parse_items`), supported by regex-based line classifiers and a name
cleaner.  This file shallowly embeds those functions over `List Char`:

* Python strings become `Line := List Char`; `None`-able cells become
  `Option Line`.
* Each regex of the source is embedded as an executable recogniser that
  follows the regex's backtracking semantics on the shapes it is applied to
  (the patterns involved are deterministic after greedy matching, which is
  argued case by case in the comments).
* Python character classes: `\s`/`str.strip` use `pySpace` (the common
  whitespace characters plus the non-breaking space and unicode spaces),
  `\d` is the ASCII digits (the inputs are machine-generated receipts),
  `\w`/`\b` use `wordChar` (ASCII alphanumerics, underscore and the Cyrillic
  block), and `str.lower`/`re.IGNORECASE` use `pyLower` (ASCII and Cyrillic).
* The scan loop of `parse_items` is embedded with an explicit fuel argument
  (the number of lines bounds the number of iterations, since the index
  strictly increases); all definitions are executable so that theorems can
  be checked on concrete documents by `decide`.
* In addition to the aggregate table `ordered` of the source, the scan state
  records `emitted`, the list of resolved (name, quantity) pairs in emission
  order: an entry is appended exactly where the source increments
  `stats["items_found"]` and updates the aggregate, so claims about "every
  Resolved Item" are stated over `emitted`.
-/

namespace BauPdfCsv

/-- A text line, as a list of characters (a Python `str`). -/
abbrev Line := List Char

/-- Literal helper: the characters of a string literal. -/
def lit (s : String) : Line := s.data

/-- The non-breaking space ` `. -/
def nbspC : Char := Char.ofNat 160

/-- Python whitespace (`str.isspace`, also matched by `\s` in `re`):
ASCII whitespace, the C1 separators, and the unicode space characters. -/
def pySpace (c : Char) : Bool :=
  c == ' ' || (9 ≤ c.toNat && c.toNat ≤ 13) || (28 ≤ c.toNat && c.toNat ≤ 31) ||
  c.toNat == 0x85 || c == nbspC || c.toNat == 0x1680 ||
  (0x2000 ≤ c.toNat && c.toNat ≤ 0x200A) || c.toNat == 0x2028 || c.toNat == 0x2029 ||
  c.toNat == 0x202F || c.toNat == 0x205F || c.toNat == 0x3000

/-- ASCII digit (`\d` on the machine-generated input). -/
def isDig (c : Char) : Bool := c.isDigit

/-- `str.lower` on the alphabets the program uses: ASCII and Cyrillic. -/
def pyLower (c : Char) : Char :=
  if 'A' ≤ c ∧ c ≤ 'Z' then Char.ofNat (c.toNat + 32)
  else if 'А' ≤ c ∧ c ≤ 'Я' then Char.ofNat (c.toNat + 32)
  else if c = 'Ё' then 'ё' else c

/-- `\w` for `\b` boundaries: ASCII alphanumerics, `_`, and the Cyrillic block. -/
def wordChar (c : Char) : Bool :=
  c.isAlphanum || c == '_' || (0x400 ≤ c.toNat && c.toNat ≤ 0x4FF)

/-- `s.replace(" ", " ")`. -/
def replaceNbsp (l : Line) : Line := l.map (fun c => if c = nbspC then ' ' else c)

/-- `re.sub(r"\s+", " ", s)`: each maximal run of whitespace becomes one
space.  The flag says whether the previous character belonged to a run. -/
def collapseWs : Bool → Line → Line
  | _, [] => []
  | pw, c :: cs =>
    if pySpace c then (if pw then collapseWs true cs else ' ' :: collapseWs true cs)
    else c :: collapseWs false cs

/-- Remove a trailing whitespace run (the right half of `str.strip`). -/
def dropTrail : Line → Line
  | [] => []
  | c :: cs =>
    match dropTrail cs with
    | [] => if pySpace c then [] else [c]
    | r => c :: r

/-- `str.strip()`. -/
def pyStrip (l : Line) : Line := dropTrail (l.dropWhile pySpace)

/-- `normalize_space` of the source: non-breaking spaces to spaces, whitespace
runs collapsed, ends stripped. -/
def normSpace (l : Line) : Line := pyStrip (collapseWs false (replaceNbsp l))

/-- `normalize_space` on `String`, as the source exposes it. -/
def normalize_space (s : String) : String := ⟨normSpace s.data⟩

/-- Is `pat` a prefix of `l`? -/
def startsWith (l pat : Line) : Bool :=
  match l, pat with
  | _, [] => true
  | [], _ :: _ => false
  | c :: cs, p :: ps => c == p && startsWith cs ps

/-- Is `pat` a substring of `l` (Python `pat in l`)? -/
def containsSub (pat : Line) : Line → Bool
  | [] => pat.isEmpty
  | c :: cs => startsWith (c :: cs) pat || containsSub pat cs

/-- The character run of leading digits and the rest. -/
def digitsOf (l : Line) : Line × Line := (l.takeWhile isDig, l.dropWhile isDig)

/-- Leading-digit test used for the greedy thousands groups. -/
def noLeadDigit : Line → Bool
  | [] => true
  | c :: _ => !isDig c

/-- `(?:[  ]\d{3})*` (thousands groups), greedily.  A group is consumed
only when a separator is followed by exactly three digits: when more digits
follow, both taking and skipping the group dead-end in the patterns that use
this (the next token is `[.,]`, `\s*₽` or `\s+`, none of which matches a
digit), so the deterministic reading agrees with the regex engine. -/
def grp3 : Line → Line
  | s :: a :: b :: c :: r =>
    if (s == ' ' || s == nbspC) && isDig a && isDig b && isDig c && noLeadDigit r
    then grp3 r
    else s :: a :: b :: c :: r
  | l => l

/-- `(?:[.,]\d+)?`, greedily. -/
def decPart : Line → Line
  | c :: d :: r =>
    if (c == '.' || c == ',') && isDig d then (d :: r).dropWhile isDig else c :: d :: r
  | l => l

/-- `RX_MONEY_LINE.fullmatch`: `^\d+(?:[  ]\d{3})*(?:[.,]\d+)?\s*₽$`. -/
def moneyLine (l : Line) : Bool :=
  let d := l.takeWhile isDig
  if d.isEmpty then false
  else ((decPart (grp3 (l.dropWhile isDig))).dropWhile pySpace) == ['₽']

/-- `RX_INT.fullmatch`: `^\d+$`. -/
def intLine (l : Line) : Bool := !l.isEmpty && l.all isDig

/-- The value of a digit line (Python `int`). -/
def lineNat (l : Line) : Nat := l.foldl (fun a c => a * 10 + (c.toNat - 48)) 0

/-- `int(float(s))` on a non-negative decimal literal (the only shape
`money_to_number` feeds it); `none` models `ValueError`. -/
def parseFloatTrunc (s : Line) : Option Nat :=
  let ip := s.takeWhile isDig
  match s.dropWhile isDig with
  | [] => if ip.isEmpty then none else some (lineNat ip)
  | '.' :: fr => if fr.all isDig && !(ip.isEmpty && fr.isEmpty) then some (lineNat ip) else none
  | _ => none

/-- `money_to_number`: strip the currency glyph and spaces, unify the decimal
separator, truncate; -1 on failure. -/
def money_to_number (l : Line) : Int :=
  let s := pyStrip ((normSpace l).filter (fun c => c ≠ '₽'))
  let s := s.map (fun c => if c = nbspC then ' ' else c)
  let s := s.filter (fun c => c ≠ ' ')
  let s := s.map (fun c => if c = ',' then '.' else c)
  match parseFloatTrunc s with
  | some v => (v : Int)
  | none => -1

/-- `is_noise`. -/
def is_noise (l : Line) : Bool :=
  let low := (pyStrip l).map pyLower
  low.isEmpty ||
  startsWith low (lit "страница:") ||
  startsWith low (lit "ваш проект") ||
  containsSub (lit "проект создан") low ||
  containsSub (lit "развертка стены") low ||
  containsSub (lit "стоимость проекта") low

/-- `is_totals_block`. -/
def is_totals_block (l : Line) : Bool :=
  let low := (pyStrip l).map pyLower
  startsWith low (lit "общий вес") ||
  startsWith low (lit "максимальный габарит заказа") ||
  startsWith low (lit "адрес:") ||
  startsWith low (lit "телефон:") ||
  startsWith low (lit "email")

/-- `is_project_total_only`: a pure money line whose preceding line mentions
the project-cost label, or whose value is at least 10000. -/
def is_project_total_only (l prev : Line) : Bool :=
  if !moneyLine (normSpace l) then false
  else
    let p := (normSpace prev).map pyLower
    if containsSub (lit "стоимость проекта") p then true
    else decide (10000 ≤ money_to_number l)

/-- The dash unification of `is_header_token`. -/
def dashUnify (c : Char) : Char := if c = '–' ∨ c = '—' then '-' else c

/-- `is_header_token`. -/
def is_header_token (l : Line) : Bool :=
  let low := ((normSpace l).map pyLower).map dashUnify
  (containsSub (lit "id") low && containsSub (lit "товар") low &&
   containsSub (lit "кол-во") low && containsSub (lit "сумма") low) ||
  ([lit "id", lit "фото", lit "товар", lit "габариты", lit "вес",
    lit "цена за шт", lit "кол-во", lit "сумма"].contains low)

/-- The `[xх×]` class under `re.IGNORECASE` (Latin, Cyrillic, multiplication sign). -/
def isXch (c : Char) : Bool := c == 'x' || c == 'X' || c == 'х' || c == 'Х' || c == '×'

/-- `\b` looking right: the end of the string or a non-word character. -/
def endB : Line → Bool
  | [] => true
  | c :: _ => !wordChar c

/-- `RX_SIZE` matched at the start of `l` (the caller checks the left `\b`):
`\d{2,}[xх×]\d{2,}(?:[xх×]\d{1,})?\b`.  Shortening a greedy digit run always
leaves a digit where the regex next needs `[xх×]` or a boundary, so only the
greedy run is tried; the optional third group backtracks to its absence,
which the disjunction reflects. -/
def sizeFrom (l : Line) : Bool :=
  let d1 := l.takeWhile isDig
  let r1 := l.dropWhile isDig
  decide (2 ≤ d1.length) &&
  match r1 with
  | x :: r2 =>
    isXch x &&
    (let d2 := r2.takeWhile isDig
     let r3 := r2.dropWhile isDig
     decide (2 ≤ d2.length) &&
     match r3 with
     | y :: r4 =>
       (isXch y && !(r4.takeWhile isDig).isEmpty && endB (r4.dropWhile isDig)) ||
       endB (y :: r4)
     | [] => true)
  | [] => false

/-- `RX_SIZE.search`: try each position whose left context is a `\b`. -/
def sizeSearchAux : Option Char → Line → Bool
  | _, [] => false
  | prev, c :: r =>
    ((match prev with | none => true | some p => !wordChar p) && sizeFrom (c :: r)) ||
    sizeSearchAux (some c) r

def sizeSearch (l : Line) : Bool := sizeSearchAux none l

/-- `RX_MM.search`: the line contains `мм` (case-insensitively). -/
def mmSearch (l : Line) : Bool := containsSub (lit "мм") (l.map pyLower)

/-- `RX_WEIGHT` matched at the start of `l`:
`\d+(?:[.,]\d+)?\s*кг\.?\b`.  When the optional dot is present the trailing
`\b` holds either with the dot (next char a word char) or, backtracking to
the bare `кг`, against the dot itself (a non-word char) — so a dot always
completes the match. -/
def weightFrom (l : Line) : Bool :=
  let d1 := l.takeWhile isDig
  let r1 := l.dropWhile isDig
  !d1.isEmpty &&
  (let r3 := (decPart r1).dropWhile pySpace
   match r3 with
   | k :: g :: r4 =>
     (pyLower k == 'к') && (pyLower g == 'г') &&
     (match r4 with
      | [] => true
      | '.' :: _ => true
      | w :: _ => !wordChar w)
   | _ => false)

/-- `RX_WEIGHT.search`. -/
def weightSearchAux : Option Char → Line → Bool
  | _, [] => false
  | prev, c :: r =>
    ((match prev with | none => true | some p => !wordChar p) && weightFrom (c :: r)) ||
    weightSearchAux (some c) r

def weightSearch (l : Line) : Bool := weightSearchAux none l

/-- `looks_like_dim_or_weight`. -/
def looks_like_dim_or_weight (l : Line) : Bool :=
  weightSearch l || (sizeSearch l && mmSearch l)

/-- `looks_like_money_or_qty`. -/
def looks_like_money_or_qty (l : Line) : Bool := moneyLine l || intLine l

/-- `RX_DIMS_ANYWHERE` matched at the start of `l`:
`\s*\d{1,4}[xх×]\d{1,4}(?:[xх×]\d{1,5})?\s*мм\.?\s*`; returns the length of
the match.  Digit runs longer than the repetition caps make every split of
the run fail (the next token never matches a digit), hence `none`. -/
def dimsMatchLen (l : Line) : Option Nat :=
  let w1 := l.takeWhile pySpace
  let r1 := l.dropWhile pySpace
  let d1 := r1.takeWhile isDig
  let r2 := r1.dropWhile isDig
  if d1.isEmpty || decide (4 < d1.length) then none
  else
    match r2 with
    | x :: r3 =>
      if !isXch x then none
      else
        let d2 := r3.takeWhile isDig
        let r4 := r3.dropWhile isDig
        if d2.isEmpty || decide (4 < d2.length) then none
        else
          let gl : Nat × Line :=
            match r4 with
            | y :: r4b =>
              if isXch y && !(r4b.takeWhile isDig).isEmpty &&
                 decide ((r4b.takeWhile isDig).length ≤ 5)
              then (1 + (r4b.takeWhile isDig).length, r4b.dropWhile isDig)
              else (0, y :: r4b)
            | [] => (0, [])
          let w2 := gl.2.takeWhile pySpace
          let r6 := gl.2.dropWhile pySpace
          match r6 with
          | m1 :: m2 :: r7 =>
            if (m1 == 'м' || m1 == 'М') && (m2 == 'м' || m2 == 'М') then
              match r7 with
              | '.' :: t =>
                some (w1.length + d1.length + 1 + d2.length + gl.1 + w2.length + 3 +
                      (t.takeWhile pySpace).length)
              | _ =>
                some (w1.length + d1.length + 1 + d2.length + gl.1 + w2.length + 2 +
                      (r7.takeWhile pySpace).length)
            else none
          | _ => none
    | [] => none

/-- `RX_DIMS_ANYWHERE.sub(" ", l)`: replace each leftmost match by one space
and resume after it; the fuel is the length of the line. -/
def dimsSubAux : Nat → Line → Line
  | 0, l => l
  | _ + 1, [] => []
  | f + 1, c :: r =>
    match dimsMatchLen (c :: r) with
    | some n => ' ' :: dimsSubAux f ((c :: r).drop n)
    | none => c :: dimsSubAux f r

def dimsSub (l : Line) : Line := dimsSubAux l.length l

/-- `normalize_key`: lower-case, unify multiplication glyphs, drop embedded
dimensions, re-normalize. -/
def normalize_key (l : Line) : Line :=
  let s := (normSpace l).map pyLower
  let s := s.map (fun c => if c = '×' ∨ c = 'х' then 'x' else c)
  normSpace (dimsSub s)

/-- `strip_dims_anywhere`. -/
def strip_dims_anywhere (l : Line) : Line := normSpace (dimsSub (normSpace l))

/-- The number token of `RX_PRICE_QTY_SUM`: `\d+(?:[  ]\d{3})*(?:[.,]\d+)?`;
returns the rest of the line on success. -/
def numTok (l : Line) : Option Line :=
  if (l.takeWhile isDig).isEmpty then none
  else some (decPart (grp3 (l.dropWhile isDig)))

/-- `RX_PRICE_QTY_SUM` matched at the start of `l`
(`price ₽ \s+ qty(1-4 digits) \s+ sum ₽`); returns the quantity group. -/
def pqsAt (l : Line) : Option Nat :=
  match numTok l with
  | none => none
  | some r =>
    match r.dropWhile pySpace with
    | '₽' :: r2 =>
      if (r2.takeWhile pySpace).isEmpty then none
      else
        let r3 := r2.dropWhile pySpace
        let q := r3.takeWhile isDig
        let r4 := r3.dropWhile isDig
        if q.isEmpty || decide (4 < q.length) then none
        else if (r4.takeWhile pySpace).isEmpty then none
        else
          match numTok (r4.dropWhile pySpace) with
          | none => none
          | some r6 =>
            match r6.dropWhile pySpace with
            | '₽' :: _ => some (lineNat q)
            | _ => none
    | _ => none

/-- `RX_PRICE_QTY_SUM.search(l)`, returning the quantity group of the
leftmost match. -/
def pqsSearch : Line → Option Nat
  | [] => none
  | c :: r =>
    match pqsAt (c :: r) with
    | some q => some q
    | none => pqsSearch r

/-- The filter of `clean_name_from_buffer`: lines dropped wherever they occur. -/
def bufFilterPred (ln : Line) : Bool :=
  is_noise ln || is_header_token ln || is_totals_block ln

/-- The tail-popping condition of `clean_name_from_buffer`. -/
def popCond (ln : Line) : Bool := looks_like_dim_or_weight ln || looks_like_money_or_qty ln

/-- `" ".join(ls)`. -/
def joinSp (ls : List Line) : Line := List.intercalate [' '] ls

/-- `re.sub("^" + tok + r"\s*", "", l, flags=IGNORECASE).strip()` for a
literal alphabetic token `tok` (given lower-case). -/
def stripLeadTok (tok : Line) (l : Line) : Line :=
  pyStrip (if (l.take tok.length).map pyLower == tok
           then (l.drop tok.length).dropWhile pySpace else l)

/-- The `\d{6,}\s+` part of the identifier prefix: at least six digits then
at least one whitespace character; returns the rest on success. -/
def idNumRest (s : Line) : Option Line :=
  let d := s.takeWhile isDig
  let r := s.dropWhile isDig
  if decide (6 ≤ d.length) && !(r.takeWhile pySpace).isEmpty
  then some (r.dropWhile pySpace) else none

/-- `re.sub(r"^(?:ID\s*)?\d{6,}\s+", "", l, flags=IGNORECASE).strip()`.
The optional `ID` prefix is tried first; if its digits fail, the bare form
starts at a letter and fails too, as in the regex engine. -/
def stripLeadId (l : Line) : Line :=
  let withId : Option Line :=
    if (l.take 2).map pyLower == lit "id"
    then idNumRest ((l.drop 2).dropWhile pySpace) else none
  pyStrip (match withId with
    | some r => r
    | none =>
      match idNumRest l with
      | some r => r
      | none => l)

/-- `clean_name_from_buffer`: filter noise/header/totals lines, pop trailing
dimension/weight/money/quantity lines, join, strip the photo/product labels
and a leading long identifier, drop embedded dimensions. -/
def clean_name_from_buffer (buf : List Line) : Line :=
  let filtered := buf.filter (fun ln => !bufFilterPred ln)
  let filtered := (filtered.reverse.dropWhile popCond).reverse
  let name := normSpace (joinSp filtered)
  let name := stripLeadTok (lit "фото") name
  let name := stripLeadTok (lit "товар") name
  let name := stripLeadId name
  strip_dims_anywhere name

/-- The mutable state of `parse_items`: the aggregate table (`ordered`), the
name buffer, the per-page totals flag, and the statistics counters.
`emitted` records each resolved (name, quantity) pair at the point where the
source increments `stats["items_found"]`. -/
structure ScanState where
  ordered : List (Line × Nat)
  emitted : List (Line × Nat)
  buf : List Line
  inTotals : Bool
  pages : Nat
  itemsFound : Nat
  anchorsInline : Nat
  anchorsMultiline : Nat
deriving Repr, DecidableEq

def initState : ScanState :=
  { ordered := [], emitted := [], buf := [], inTotals := false,
    pages := 0, itemsFound := 0, anchorsInline := 0, anchorsMultiline := 0 }

/-- `ordered[name] = ordered.get(name, 0) + qty` on an insertion-ordered
association list. -/
def addQty : List (Line × Nat) → Line → Nat → List (Line × Nat)
  | [], n, q => [(n, q)]
  | (k, v) :: t, n, q => if k = n then (k, v + q) :: t else (k, v) :: addQty t n q

/-- The quantity search of the multiline anchor: the first index `j` in the
lookahead window holding a bare integer in `[1, 500]`; the fuel is the
length of the window. -/
def findQty (lines : List Line) : Nat → Nat → Option Nat
  | _, 0 => none
  | j, f + 1 =>
    let ln := lines.getD j []
    if intLine ln ∧ 1 ≤ lineNat ln ∧ lineNat ln ≤ 500 then some j
    else findQty lines (j + 1) f

/-- The sum search of the multiline anchor: the first index holding a
money-only line or any line bearing the currency glyph. -/
def findSum (lines : List Line) : Nat → Nat → Option Nat
  | _, 0 => none
  | j, f + 1 =>
    let ln := lines.getD j []
    if moneyLine ln || ln.contains '₽' then some j
    else findSum lines (j + 1) f

/-- One iteration of the scan loop of `parse_items` at index `i`: returns the
new state and the next index. -/
def scanStep (lines : List Line) (i : Nat) (st : ScanState) : ScanState × Nat :=
  let line := lines.getD i []
  let prev := if i = 0 then [] else lines.getD (i - 1) []
  if is_noise line || is_header_token line then (st, i + 1)
  else if is_project_total_only line prev || is_totals_block line then
    ({ st with inTotals := true, buf := [] }, i + 1)
  else if st.inTotals then (st, i + 1)
  else
    match pqsSearch line with
    | some qty =>
      let name := clean_name_from_buffer st.buf
      let st1 := { st with buf := [] }
      if name = [] then (st1, i + 1)
      else if 1 ≤ qty ∧ qty ≤ 500 then
        ({ st1 with
            ordered := addQty st1.ordered name qty,
            emitted := st1.emitted ++ [(name, qty)],
            itemsFound := st1.itemsFound + 1,
            anchorsInline := st1.anchorsInline + 1 }, i + 1)
      else (st1, i + 1)
    | none =>
      if moneyLine line then
        let e := min lines.length (i + 8)
        match findQty lines (i + 1) (e - (i + 1)) with
        | none => ({ st with buf := st.buf ++ [line] }, i + 1)
        | some qj =>
          match findSum lines (qj + 1) (e - (qj + 1)) with
          | none => ({ st with buf := st.buf ++ [line] }, i + 1)
          | some sj =>
            let name := clean_name_from_buffer st.buf
            let st1 := { st with buf := [] }
            if name = [] then (st1, sj + 1)
            else
              let qty := lineNat (lines.getD qj [])
              ({ st1 with
                  ordered := addQty st1.ordered name qty,
                  emitted := st1.emitted ++ [(name, qty)],
                  itemsFound := st1.itemsFound + 1,
                  anchorsMultiline := st1.anchorsMultiline + 1 }, sj + 1)
      else ({ st with buf := st.buf ++ [line] }, i + 1)

/-- The scan loop (`while i < len(lines)`); the index strictly increases at
every step, so `lines.length` iterations of fuel always suffice. -/
def scanLoop (lines : List Line) : Nat → Nat → ScanState → ScanState
  | 0, _, st => st
  | f + 1, i, st =>
    if i < lines.length then
      let r := scanStep lines i st
      scanLoop lines f r.2 r.1
    else st

/-- One page of the document: its raw text lines.  The page is skipped when
no line carries the currency glyph (`"₽" not in txt`); otherwise the lines
are normalized, blank lines dropped, the totals flag and the buffer reset,
and the scan loop run. -/
def processPage (st : ScanState) (page : List Line) : ScanState :=
  let st := { st with pages := st.pages + 1 }
  if !(page.any (fun l => l.contains '₽')) then st
  else
    let lines := (page.map normSpace).filter (fun x => !x.isEmpty)
    if lines.isEmpty then st
    else scanLoop lines lines.length 0 { st with inTotals := false, buf := [] }

/-- `parse_items`: fold the pages, returning the aggregate table in first-seen
order together with the final state (the statistics record). -/
def parse_items (doc : List (List Line)) : List (Line × Nat) × ScanState :=
  let st := doc.foldl processPage initState
  (st.ordered, st)

/-! ## The article lookup map (`load_article_map`)

The loader's collaborators (the filesystem, `openpyxl`) are modelled as an
environment record: whether the library imported, whether the workbook file
exists at the resolved `ART_XLSX_PATH`, and what opening the workbook
yields — an error detail or the cell grid of the first sheet (first row the
header; a missing cell is `none`, a filled cell its stringified value). -/

structure ArtEnv where
  openpyxlAvailable : Bool
  artXlsxPath : Line
  fileExists : Bool
  openResult : Except Line (List (List (Option Line)))
  artValueColumnEnv : Line

/-- The index of the first header cell satisfying `p` (the `break` fallback
loop of the source). -/
def firstIdx (p : Line → Bool) : Nat → List Line → Option Nat
  | _, [] => none
  | i, h :: t => if p h then some i else firstIdx p (i + 1) t

/-- The index of the last header cell satisfying `p` (the main header loop
assigns on every match, so the last match wins). -/
def lastIdx (p : Line → Bool) : Nat → List Line → Option Nat
  | _, [] => none
  | i, h :: t =>
    match lastIdx p (i + 1) t with
    | some j => some j
    | none => if p h then some i else none

/-- Insert or overwrite in an insertion-ordered association list
(`m[k] = v` on a Python dict). -/
def setKey : List (Line × Line) → Line → Line → List (Line × Line)
  | [], k, v => [(k, v)]
  | (a, b) :: t, k, v => if a = k then (a, v) :: t else (a, b) :: setKey t k v

/-- `m.get(k, "")`. -/
def mapGet (m : List (Line × Line)) (k : Line) : Line :=
  match m.find? (fun kv => kv.1 == k) with
  | some kv => kv.2
  | none => []

/-- One iteration of the row loop of `load_article_map`: skip a row whose
product cell is missing or falsy or whose value cell is missing
(`if not товар or val is None`), then skip when either normalizes to the
empty string, else record under the normalized key. -/
def rowStep (m : List (Line × Line)) (p : Option Line × Option Line) :
    List (Line × Line) :=
  match p with
  | (none, _) => m
  | (some _, none) => m
  | (some tv, some v) =>
    if tv = [] then m
    else
      let tovS := normSpace tv
      let valS := normSpace v
      if tovS = [] ∨ valS = [] then m
      else setKey m (normalize_key tovS) valS

/-- The row loop of `load_article_map` over the extracted (product, value)
cell pairs. -/
def rowsToMap (pairs : List (Option Line × Option Line)) : List (Line × Line) :=
  pairs.foldl rowStep []

/-- An apostrophe, written by code point to keep it out of the literals. -/
def sq : Line := [Char.ofNat 39]

/-- `load_article_map`: the map, a status string and the used column name.
Structural failures return an empty map and a descriptive status instead of
raising.  Column indices are zero-based (`товар_col = 1` of the source is
index 0 here). -/
def loadArticleMap (env : ArtEnv) : List (Line × Line) × Line × Line :=
  if !env.openpyxlAvailable then ([], lit "openpyxl_not_installed", [])
  else if !env.fileExists then ([], lit "file_not_found:" ++ env.artXlsxPath, [])
  else
    match env.openResult with
    | .error e => ([], lit "cannot_open:" ++ e, [])
    | .ok rows =>
      let desired := normSpace env.artValueColumnEnv
      let header := (rows.headD []).map (fun c => normSpace (c.getD []))
      let tovarCol :=
        match lastIdx (fun h => h.map pyLower == lit "товар") 0 header with
        | some j => j
        | none => 0
      let vc :=
        match lastIdx (fun h => h == desired) 0 header with
        | some j => some (j, desired)
        | none =>
          match firstIdx (fun h => h.map pyLower == lit "артикул") 0 header with
          | some j => some (j, lit "Артикул")
          | none => none
      match vc with
      | none =>
        ([], lit "bad_header:no колонка " ++ sq ++ desired ++ sq ++
             lit " (и fallback " ++ sq ++ lit "Артикул" ++ sq ++ lit ")", [])
      | some (valueCol, usedCol) =>
        let pairs := (rows.drop 1).map
          (fun row => (row.getD tovarCol none, row.getD valueCol none))
        (rowsToMap pairs, lit "ok", usedCol)

/-- The invariant of claim C1: every emitted Resolved Item has a non-empty
name and a quantity in `[1, 500]`, and every aggregate-table key is a
non-empty name. -/
def goodEmits (st : ScanState) : Prop :=
  (∀ p ∈ st.emitted, p.1 ≠ [] ∧ 1 ≤ p.2 ∧ p.2 ≤ 500) ∧
  (∀ kv ∈ st.ordered, kv.1 ≠ [])

/-! ## Shape predicates for normalized text

A line produced by `normSpace` contains whitespace only as single interior
spaces: these predicates state that and drive the idempotence proof. -/

/-- The first character, if any, is not whitespace. -/
def hdOk (l : Line) : Bool :=
  match l with
  | [] => true
  | c :: _ => !pySpace c

/-- The last character, if any, is not whitespace. -/
def lastOk : Line → Bool
  | [] => true
  | [c] => !pySpace c
  | _ :: c :: t => lastOk (c :: t)

/-- No two adjacent whitespace characters. -/
def chainOk : Line → Bool
  | [] => true
  | [_] => true
  | a :: b :: t => !(pySpace a && pySpace b) && chainOk (b :: t)

/-- Every whitespace character is a plain space. -/
def wsSp (l : Line) : Bool := l.all (fun c => !pySpace c || c == ' ')

end BauPdfCsv

namespace BauPdfCsv

/-! ## Normalization lemmas (claim C8) -/

theorem chainOk_tail {c : Char} {cs : Line} (h : chainOk (c :: cs) = true) :
    chainOk cs = true := by
  cases cs with
  | nil => rfl
  | cons d t =>
    rw [show chainOk (c :: d :: t) = (!(pySpace c && pySpace d) && chainOk (d :: t))
          from rfl, Bool.and_eq_true] at h
    exact h.2

theorem chainOk_two {c d : Char} {t : Line} (h : chainOk (c :: d :: t) = true)
    (hc : pySpace c = true) : pySpace d = false := by
  rw [show chainOk (c :: d :: t) = (!(pySpace c && pySpace d) && chainOk (d :: t))
        from rfl, Bool.and_eq_true] at h
  cases hd : pySpace d
  · rfl
  · rw [hc, hd] at h
    exact absurd h.1 (by decide)

theorem hd_collapse_true (l : Line) : hdOk (collapseWs true l) = true := by
  induction l with
  | nil => rfl
  | cons c cs ih =>
    cases h : pySpace c with
    | true => simpa [collapseWs, h] using ih
    | false => simp [collapseWs, h, hdOk]

theorem chain_cons_of_hd {c : Char} {r : Line} (h1 : chainOk r = true)
    (h2 : pySpace c = false ∨ hdOk r = true) : chainOk (c :: r) = true := by
  cases r with
  | nil => rfl
  | cons d t =>
    have hd : pySpace c = false ∨ pySpace d = false := by
      rcases h2 with h2 | h2
      · exact Or.inl h2
      · right
        cases hdd : pySpace d
        · rfl
        · rw [show hdOk (d :: t) = !pySpace d from rfl, hdd] at h2
          exact absurd h2 (by decide)
    rw [show chainOk (c :: d :: t) = (!(pySpace c && pySpace d) && chainOk (d :: t))
          from rfl, Bool.and_eq_true]
    rcases hd with hd | hd <;> simp [hd, h1]

theorem chain_collapse (l : Line) : ∀ pw, chainOk (collapseWs pw l) = true := by
  induction l with
  | nil => intro pw; rfl
  | cons c cs ih =>
    intro pw
    cases h : pySpace c with
    | true =>
      cases pw with
      | true => simpa [collapseWs, h] using ih true
      | false =>
        have e : collapseWs false (c :: cs) = ' ' :: collapseWs true cs := by
          simp [collapseWs, h]
        rw [e]
        exact chain_cons_of_hd (ih true) (Or.inr (hd_collapse_true cs))
    | false =>
      have e : collapseWs pw (c :: cs) = c :: collapseWs false cs := by
        cases pw <;> simp [collapseWs, h]
      rw [e]
      exact chain_cons_of_hd (ih false) (Or.inl h)

theorem wsSp_cons {c : Char} {r : Line} :
    wsSp (c :: r) = ((!pySpace c || c == ' ') && wsSp r) := by
  simp [wsSp, List.all_cons]

theorem wsSp_collapse (l : Line) : ∀ pw, wsSp (collapseWs pw l) = true := by
  induction l with
  | nil => intro pw; rfl
  | cons c cs ih =>
    intro pw
    cases h : pySpace c with
    | true =>
      cases pw with
      | true => simpa [collapseWs, h] using ih true
      | false =>
        have e : collapseWs false (c :: cs) = ' ' :: collapseWs true cs := by
          simp [collapseWs, h]
        rw [e, wsSp_cons, ih true]
        simp
    | false =>
      have e : collapseWs pw (c :: cs) = c :: collapseWs false cs := by
        cases pw <;> simp [collapseWs, h]
      rw [e, wsSp_cons, ih false, h]
      simp

theorem collapse_id (l : Line) (hc : chainOk l = true) (hw : wsSp l = true) :
    collapseWs false l = l ∧ (hdOk l = true → collapseWs true l = l) := by
  induction l with
  | nil => exact ⟨rfl, fun _ => rfl⟩
  | cons c cs ih =>
    rw [wsSp_cons, Bool.and_eq_true] at hw
    have ihcs := ih (chainOk_tail hc) hw.2
    cases h : pySpace c with
    | true =>
      have hsp : c = ' ' := by
        have := hw.1
        rw [h] at this
        simpa using this
      have hhd : hdOk cs = true := by
        cases cs with
        | nil => rfl
        | cons d t =>
          rw [show hdOk (d :: t) = !pySpace d from rfl, chainOk_two hc h]
          rfl
      constructor
      · have e : collapseWs false (c :: cs) = ' ' :: collapseWs true cs := by
          simp [collapseWs, h]
        rw [e, ihcs.2 hhd, hsp]
      · intro hbad
        rw [show hdOk (c :: cs) = !pySpace c from rfl, h] at hbad
        exact absurd hbad (by decide)
    | false =>
      have e : ∀ pw, collapseWs pw (c :: cs) = c :: collapseWs false cs := by
        intro pw; cases pw <;> simp [collapseWs, h]
      exact ⟨by rw [e false, ihcs.1], fun _ => by rw [e true, ihcs.1]⟩

theorem hd_dropWhile (l : Line) : hdOk (l.dropWhile pySpace) = true := by
  induction l with
  | nil => rfl
  | cons c cs ih =>
    cases h : pySpace c with
    | true => simpa [List.dropWhile_cons, h] using ih
    | false => simp [List.dropWhile_cons, h, hdOk]

theorem chain_dropWhile (l : Line) (hc : chainOk l = true) :
    chainOk (l.dropWhile pySpace) = true := by
  induction l with
  | nil => exact hc
  | cons c cs ih =>
    cases h : pySpace c with
    | true => simpa [List.dropWhile_cons, h] using ih (chainOk_tail hc)
    | false => simpa [List.dropWhile_cons, h] using hc

theorem wsSp_dropWhile (l : Line) (hw : wsSp l = true) :
    wsSp (l.dropWhile pySpace) = true := by
  induction l with
  | nil => exact hw
  | cons c cs ih =>
    rw [wsSp_cons, Bool.and_eq_true] at hw
    cases h : pySpace c with
    | true => simpa [List.dropWhile_cons, h] using ih hw.2
    | false =>
      rw [List.dropWhile_cons_of_neg (by simp [h]), wsSp_cons, Bool.and_eq_true]
      exact hw

theorem dropWhile_id (l : Line) (hh : hdOk l = true) : l.dropWhile pySpace = l := by
  cases l with
  | nil => rfl
  | cons c cs =>
    simp [hdOk] at hh
    simp [List.dropWhile, hh]

/-- A non-empty `dropTrail` keeps the head of the list. -/
theorem dropTrail_cons (c : Char) (cs : Line) :
    dropTrail (c :: cs) = [] ∨ ∃ t, dropTrail (c :: cs) = c :: t := by
  cases h : dropTrail cs with
  | nil =>
    by_cases hc : pySpace c = true
    · left; simp [dropTrail, h, hc]
    · right; exact ⟨[], by simp [dropTrail, h, hc]⟩
  | cons d t => right; exact ⟨d :: t, by simp [dropTrail, h]⟩

theorem lastOk_dropTrail (l : Line) : lastOk (dropTrail l) = true := by
  induction l with
  | nil => rfl
  | cons c cs ih =>
    cases h : dropTrail cs with
    | nil =>
      by_cases hc : pySpace c = true
      · simp [dropTrail, h, hc, lastOk]
      · simp [dropTrail, h, hc, lastOk]
    | cons d t =>
      have : dropTrail (c :: cs) = c :: d :: t := by simp [dropTrail, h]
      rw [this]
      rw [h] at ih
      simpa [lastOk] using ih

theorem dropTrail_head (c : Char) (cs : Line) {d : Char} {t : Line}
    (h : dropTrail (c :: cs) = d :: t) : d = c := by
  rcases dropTrail_cons c cs with h2 | ⟨t2, h2⟩
  · rw [h2] at h; cases h
  · rw [h2] at h; cases h; rfl

theorem hd_dropTrail (l : Line) (hh : hdOk l = true) : hdOk (dropTrail l) = true := by
  cases l with
  | nil => rfl
  | cons c cs =>
    rcases dropTrail_cons c cs with h | ⟨t, h⟩
    · rw [h]; rfl
    · rw [h]; simpa [hdOk] using hh

theorem chain_dropTrail (l : Line) (hc : chainOk l = true) :
    chainOk (dropTrail l) = true := by
  induction l with
  | nil => exact hc
  | cons c cs ih =>
    cases h : dropTrail cs with
    | nil =>
      cases hc2 : pySpace c
      · simp [dropTrail, h, hc2, chainOk]
      · simp [dropTrail, h, hc2, chainOk]
    | cons d t =>
      have hckd : dropTrail (c :: cs) = c :: d :: t := by simp [dropTrail, h]
      rw [hckd]
      have hchain : chainOk (d :: t) = true := h ▸ ih (chainOk_tail hc)
      apply chain_cons_of_hd hchain
      cases cs with
      | nil => exact absurd h (by simp [dropTrail])
      | cons e es =>
        have hde : d = e := dropTrail_head e es h
        cases hcsp : pySpace c
        · exact Or.inl rfl
        · right
          rw [show hdOk (d :: t) = !pySpace d from rfl, hde, chainOk_two hc hcsp]
          rfl

theorem wsSp_dropTrail (l : Line) (hw : wsSp l = true) :
    wsSp (dropTrail l) = true := by
  induction l with
  | nil => exact hw
  | cons c cs ih =>
    rw [wsSp_cons, Bool.and_eq_true] at hw
    cases h : dropTrail cs with
    | nil =>
      cases hc : pySpace c
      · have e : dropTrail (c :: cs) = [c] := by simp [dropTrail, h, hc]
        rw [e, wsSp_cons, Bool.and_eq_true]
        exact ⟨hw.1, rfl⟩
      · have e : dropTrail (c :: cs) = [] := by simp [dropTrail, h, hc]
        rw [e]; rfl
    | cons d t =>
      have e : dropTrail (c :: cs) = c :: d :: t := by simp [dropTrail, h]
      rw [e, wsSp_cons, Bool.and_eq_true]
      exact ⟨hw.1, h ▸ ih hw.2⟩

theorem dropTrail_id (l : Line) (hl : lastOk l = true) : dropTrail l = l := by
  induction l with
  | nil => rfl
  | cons c cs ih =>
    cases cs with
    | nil =>
      have hc : pySpace c = false := by
        cases hc2 : pySpace c
        · rfl
        · rw [show lastOk [c] = !pySpace c from rfl, hc2] at hl
          exact absurd hl (by decide)
      simp [dropTrail, hc]
    | cons d t =>
      have hl2 : lastOk (d :: t) = true := by
        rw [show lastOk (c :: d :: t) = lastOk (d :: t) from rfl] at hl
        exact hl
      have e : dropTrail (d :: t) = d :: t := ih hl2
      rw [show dropTrail (c :: d :: t) =
            (match dropTrail (d :: t) with
             | [] => if pySpace c = true then [] else [c]
             | r => c :: r) from rfl, e]

theorem replaceNbsp_id (l : Line) (hw : wsSp l = true) : replaceNbsp l = l := by
  induction l with
  | nil => rfl
  | cons c cs ih =>
    rw [wsSp_cons, Bool.and_eq_true] at hw
    have hc : c ≠ nbspC := by
      intro h
      have := hw.1
      rw [h] at this
      exact absurd this (by decide)
    show (if c = nbspC then ' ' else c) :: replaceNbsp cs = c :: cs
    rw [if_neg hc, ih hw.2]

theorem normSpace_props (l : Line) :
    chainOk (normSpace l) = true ∧ wsSp (normSpace l) = true ∧
    hdOk (normSpace l) = true ∧ lastOk (normSpace l) = true := by
  unfold normSpace pyStrip
  refine ⟨?_, ?_, ?_, ?_⟩
  · exact chain_dropTrail _ (chain_dropWhile _ (chain_collapse _ false))
  · exact wsSp_dropTrail _ (wsSp_dropWhile _ (wsSp_collapse _ false))
  · exact hd_dropTrail _ (hd_dropWhile _)
  · exact lastOk_dropTrail _

theorem normSpace_idem (l : Line) : normSpace (normSpace l) = normSpace l := by
  obtain ⟨hc, hw, hh, hl⟩ := normSpace_props l
  show pyStrip (collapseWs false (replaceNbsp (normSpace l))) = normSpace l
  rw [replaceNbsp_id _ hw, (collapse_id _ hc hw).1]
  unfold pyStrip
  rw [dropWhile_id _ hh, dropTrail_id _ hl]

/-- C8: whitespace normalization is idempotent: for every string `s`,
`normalize_space (normalize_space s) = normalize_space s`. -/
theorem c8_normalize_space_idempotent (s : String) :
    normalize_space (normalize_space s) = normalize_space s := by
  unfold normalize_space
  exact congrArg String.mk (normSpace_idem s.data)

/-! ## Scan-loop lemmas (claims C1, C2, C5, C6, C10) -/

/-- The quantity index returned by the window search holds a bare integer
whose value lies in `[1, 500]`, within the searched range. -/
theorem findQty_some {lines : List Line} {k : Nat} :
    ∀ {j f : Nat}, findQty lines j f = some k →
    intLine (lines.getD k []) = true ∧ 1 ≤ lineNat (lines.getD k []) ∧
    lineNat (lines.getD k []) ≤ 500 ∧ j ≤ k ∧ k < j + f := by
  intro j f
  induction f generalizing j with
  | zero => intro h; cases h
  | succ f ih =>
    intro h
    rw [findQty] at h
    split at h
    · cases h
      rename_i hcond
      exact ⟨hcond.1, hcond.2.1, hcond.2.2, Nat.le_refl _, by omega⟩
    · have := ih h
      exact ⟨this.1, this.2.1, this.2.2.1, by omega, by omega⟩

/-- If no index of the window holds an in-range bare integer, the quantity
search fails. -/
theorem findQty_none {lines : List Line} :
    ∀ {j f : Nat},
    (∀ k, j ≤ k → k < j + f →
      ¬(intLine (lines.getD k []) = true ∧ 1 ≤ lineNat (lines.getD k []) ∧
        lineNat (lines.getD k []) ≤ 500)) →
    findQty lines j f = none := by
  intro j f
  induction f generalizing j with
  | zero => intro _; rfl
  | succ f ih =>
    intro h
    rw [findQty]
    split
    · rename_i hcond
      exact absurd hcond (h j (Nat.le_refl _) (by omega))
    · exact ih (fun k hk1 hk2 => h k (by omega) (by omega))

/-- The index returned by the sum search is in range and bears money or the
currency glyph. -/
theorem findSum_some {lines : List Line} {k : Nat} :
    ∀ {j f : Nat}, findSum lines j f = some k →
    (moneyLine (lines.getD k []) || (lines.getD k []).contains '₽') = true ∧
    j ≤ k ∧ k < j + f := by
  intro j f
  induction f generalizing j with
  | zero => intro h; cases h
  | succ f ih =>
    intro h
    rw [findSum] at h
    split at h
    · cases h
      rename_i hcond
      exact ⟨hcond, Nat.le_refl _, by omega⟩
    · have := ih h
      exact ⟨this.1, by omega, by omega⟩

/-- If no index of the window bears money or the currency glyph, the sum
search fails. -/
theorem findSum_none {lines : List Line} :
    ∀ {j f : Nat},
    (∀ k, j ≤ k → k < j + f →
      (moneyLine (lines.getD k []) || (lines.getD k []).contains '₽') = false) →
    findSum lines j f = none := by
  intro j f
  induction f generalizing j with
  | zero => intro _; rfl
  | succ f ih =>
    intro h
    rw [findSum]
    split
    · rename_i hcond
      rw [h j (Nat.le_refl _) (by omega)] at hcond
      exact absurd hcond (by decide)
    · exact ih (fun k hk1 hk2 => h k (by omega) (by omega))

/-- Every step of the scan either leaves the emitted list and the aggregate
table untouched, or emits exactly one pair with a non-empty name and a
quantity in `[1, 500]`, adding the same pair to the table. -/
theorem scanStep_cases (lines : List Line) (i : Nat) (st : ScanState) :
    ((scanStep lines i st).1.emitted = st.emitted ∧
     (scanStep lines i st).1.ordered = st.ordered) ∨
    ∃ n q, n ≠ [] ∧ 1 ≤ q ∧ q ≤ 500 ∧
      (scanStep lines i st).1.emitted = st.emitted ++ [(n, q)] ∧
      (scanStep lines i st).1.ordered = addQty st.ordered n q := by
  unfold scanStep
  dsimp only
  generalize (if i = 0 then ([] : Line) else lines.getD (i - 1) []) = prev
  split
  · exact Or.inl ⟨rfl, rfl⟩
  split
  · exact Or.inl ⟨rfl, rfl⟩
  split
  · exact Or.inl ⟨rfl, rfl⟩
  split
  · -- inline anchor
    split
    · exact Or.inl ⟨rfl, rfl⟩
    split
    · rename_i qty _ hname hq
      exact Or.inr ⟨_, qty, hname, hq.1, hq.2, rfl, rfl⟩
    · exact Or.inl ⟨rfl, rfl⟩
  · -- multiline anchor or plain accumulation
    split
    · split
      · exact Or.inl ⟨rfl, rfl⟩
      · rename_i qj hq
        split
        · exact Or.inl ⟨rfl, rfl⟩
        · split
          · exact Or.inl ⟨rfl, rfl⟩
          · rename_i hname
            have hp := findQty_some hq
            exact Or.inr ⟨_, _, hname, hp.2.1, hp.2.2.1, rfl, rfl⟩
    · exact Or.inl ⟨rfl, rfl⟩

theorem addQty_names {m : List (Line × Nat)} {n : Line} {q : Nat}
    (hm : ∀ kv ∈ m, kv.1 ≠ []) (hn : n ≠ []) :
    ∀ kv ∈ addQty m n q, kv.1 ≠ [] := by
  induction m with
  | nil =>
    intro kv h
    rw [show addQty [] n q = [(n, q)] from rfl] at h
    simp at h
    rw [h]
    exact hn
  | cons p t ih =>
    intro kv h
    obtain ⟨k, v⟩ := p
    rw [show addQty ((k, v) :: t) n q =
          (if k = n then (k, v + q) :: t else (k, v) :: addQty t n q) from rfl] at h
    split at h
    · rcases List.mem_cons.mp h with h | h
      · rw [h]; exact hm (k, v) (by simp)
      · exact hm kv (List.mem_cons_of_mem _ h)
    · rcases List.mem_cons.mp h with h | h
      · rw [h]; exact hm (k, v) (by simp)
      · exact ih (fun kv2 h2 => hm kv2 (List.mem_cons_of_mem _ h2)) kv h

theorem scanStep_good (lines : List Line) (i : Nat) (st : ScanState)
    (h : goodEmits st) : goodEmits (scanStep lines i st).1 := by
  rcases scanStep_cases lines i st with ⟨he, ho⟩ | ⟨n, q, hn, h1, h2, he, ho⟩
  · exact ⟨he ▸ h.1, ho ▸ h.2⟩
  · constructor
    · rw [he]
      intro p hp
      rcases List.mem_append.mp hp with hp | hp
      · exact h.1 p hp
      · simp at hp
        rw [hp]
        exact ⟨hn, h1, h2⟩
    · rw [ho]
      exact addQty_names h.2 hn

theorem scanLoop_good (lines : List Line) :
    ∀ (f i : Nat) (st : ScanState), goodEmits st →
    goodEmits (scanLoop lines f i st) := by
  intro f
  induction f with
  | zero => intro i st h; exact h
  | succ f ih =>
    intro i st h
    rw [scanLoop]
    split
    · exact ih _ _ (scanStep_good lines i st h)
    · exact h

theorem processPage_good (st : ScanState) (page : List Line)
    (h : goodEmits st) : goodEmits (processPage st page) := by
  unfold processPage
  dsimp only
  split
  · exact h
  split
  · exact h
  · exact scanLoop_good _ _ _ _ h

theorem foldl_good : ∀ (doc : List (List Line)) (st : ScanState), goodEmits st →
    goodEmits (doc.foldl processPage st) := by
  intro doc
  induction doc with
  | nil => intro st h; exact h
  | cons p t ih =>
    intro st h
    exact ih _ (processPage_good st p h)

/-- C1: every Resolved Item emitted by `parse_items` has a non-empty cleaned
name and a quantity in `[1, 500]`; every pair added to the aggregate table
has a non-empty name. -/
theorem c1_resolved_item_bounds (doc : List (List Line)) :
    (∀ p ∈ (parse_items doc).2.emitted, p.1 ≠ [] ∧ 1 ≤ p.2 ∧ p.2 ≤ 500) ∧
    (∀ kv ∈ (parse_items doc).1, kv.1 ≠ []) := by
  have h0 : goodEmits initState := ⟨fun p hp => (nomatch hp), fun kv hk => (nomatch hk)⟩
  exact foldl_good doc initState h0

/-- C1 witness: on the concrete four-line document of the spec's first
scenario, the pair (Стол, 2) is emitted and the theorem yields its bounds. -/
theorem c1_resolved_item_bounds_witness :
    (lit "Стол", 2) ∈
      (parse_items [[lit "Стол", lit "1 500 ₽", lit "2", lit "3 000 ₽"]]).2.emitted ∧
    (lit "Стол" ≠ [] ∧ 1 ≤ 2 ∧ 2 ≤ 500) ∧
    (lit "Стол", 2) ∈ (parse_items [[lit "Стол", lit "1 500 ₽", lit "2", lit "3 000 ₽"]]).1 ∧
    lit "Стол" ≠ ([] : Line) := by
  refine ⟨by decide, ?_, by decide, ?_⟩
  · exact (c1_resolved_item_bounds
      [[lit "Стол", lit "1 500 ₽", lit "2", lit "3 000 ₽"]]).1 (lit "Стол", 2) (by decide)
  · exact (c1_resolved_item_bounds
      [[lit "Стол", lit "1 500 ₽", lit "2", lit "3 000 ₽"]]).2 (lit "Стол", 2) (by decide)

/-- In totals mode with an empty buffer the scan step changes nothing but
the index: every remaining line of the page is skipped. -/
theorem scanStep_inTotals (lines : List Line) (i : Nat) (st : ScanState)
    (h1 : st.inTotals = true) (h2 : st.buf = []) :
    scanStep lines i st = (st, i + 1) := by
  unfold scanStep
  dsimp only
  generalize (if i = 0 then ([] : Line) else lines.getD (i - 1) []) = prev
  split
  · rfl
  split
  · have : { st with inTotals := true, buf := ([] : List Line) } = st := by
      cases st
      simp_all
    rw [this]
  · simp [h1]

/-- Once totals mode holds with a cleared buffer, the rest of the page scan
is the identity on the state. -/
theorem scanLoop_inTotals (lines : List Line) :
    ∀ (f i : Nat) (st : ScanState), st.inTotals = true → st.buf = [] →
    scanLoop lines f i st = st := by
  intro f
  induction f with
  | zero => intro i st _ _; rfl
  | succ f ih =>
    intro i st h1 h2
    rw [scanLoop]
    split
    · rw [scanStep_inTotals lines i st h1 h2]
      exact ih (i + 1) st h1 h2
    · rfl

/-- C5: a line that reaches the totals check and satisfies
`is_project_total_only` (a pure money line of value at least 10000 or one
preceded by the project-cost label) or `is_totals_block` flips the page into
totals mode and clears the Name Buffer, and the remaining scan of the page
(any fuel, any position) accumulates no line and emits no item. -/
theorem c5_totals_mode (lines : List Line) (i f j : Nat) (st : ScanState)
    (h1 : is_noise (lines.getD i []) = false)
    (h2 : is_header_token (lines.getD i []) = false)
    (h3 : (is_project_total_only (lines.getD i [])
            (if i = 0 then [] else lines.getD (i - 1) []) ||
           is_totals_block (lines.getD i [])) = true) :
    scanStep lines i st = ({ st with inTotals := true, buf := [] }, i + 1) ∧
    scanLoop lines f j { st with inTotals := true, buf := [] } =
      { st with inTotals := true, buf := [] } := by
  constructor
  · unfold scanStep
    dsimp only
    rw [if_neg (by rw [h1, h2]; decide), if_pos h3]
  · exact scanLoop_inTotals lines f j _ rfl rfl

/-- C5 witness: a concrete totals-vocabulary line at index 0 flips totals
mode, clears a non-empty buffer, and freezes the remaining scan. -/
theorem c5_totals_mode_witness :
    scanStep [lit "Общий вес: 12 кг", lit "Стол", lit "450 ₽"] 0
        { initState with buf := [lit "Шкаф"] } =
      ({ initState with inTotals := true, buf := [] }, 1) ∧
    scanLoop [lit "Общий вес: 12 кг", lit "Стол", lit "450 ₽"] 3 1
        { initState with inTotals := true, buf := [] } =
      { initState with inTotals := true, buf := [] } := by
  have h := c5_totals_mode [lit "Общий вес: 12 кг", lit "Стол", lit "450 ₽"] 0 3 1
    { initState with buf := [lit "Шкаф"] } (by decide) (by decide) (by decide)
  exact h

/-- C10: a page none of whose lines carries the currency glyph is skipped
whole: the state is unchanged except that the pages counter increments — in
particular no line enters the Name Buffer and no item is emitted. -/
theorem c10_no_currency_page_skipped (st : ScanState) (page : List Line)
    (h : (page.any (fun l => l.contains '₽')) = false) :
    processPage st page = { st with pages := st.pages + 1 } := by
  unfold processPage
  dsimp only
  rw [h]
  rfl

/-- C10 witness: a concrete page with no currency glyph. -/
theorem c10_no_currency_page_skipped_witness :
    processPage initState [lit "Привет", lit "Стол 60x40"] =
      { initState with pages := 1 } := by
  exact c10_no_currency_page_skipped initState [lit "Привет", lit "Стол 60x40"] (by decide)

/-- C6: when a money-only line starts a multiline anchor attempt and the
lookahead window contains no in-range bare-integer quantity line followed by
a money-only or currency-bearing sum line, the money-only line itself is
appended to the Name Buffer and the scan advances by exactly one line, with
no item emitted and no other state change. -/
theorem c6_multiline_fallback (lines : List Line) (i : Nat) (st : ScanState)
    (h1 : is_noise (lines.getD i []) = false)
    (h2 : is_header_token (lines.getD i []) = false)
    (h3 : (is_project_total_only (lines.getD i [])
            (if i = 0 then [] else lines.getD (i - 1) []) ||
           is_totals_block (lines.getD i [])) = false)
    (h4 : st.inTotals = false)
    (h5 : pqsSearch (lines.getD i []) = none)
    (h6 : moneyLine (lines.getD i []) = true)
    (h7 : ∀ j, i + 1 ≤ j → j < min lines.length (i + 8) →
          intLine (lines.getD j []) = true → 1 ≤ lineNat (lines.getD j []) →
          lineNat (lines.getD j []) ≤ 500 →
          ∀ k, j < k → k < min lines.length (i + 8) →
          (moneyLine (lines.getD k []) || (lines.getD k []).contains '₽') = false) :
    scanStep lines i st = ({ st with buf := st.buf ++ [lines.getD i []] }, i + 1) := by
  unfold scanStep
  dsimp only
  rw [if_neg (by rw [h1, h2]; decide), if_neg (by rw [h3]; decide),
      if_neg (by rw [h4]; decide), h5]
  dsimp only
  rw [if_pos h6]
  cases hq : findQty lines (i + 1) (min lines.length (i + 8) - (i + 1)) with
  | none => rfl
  | some qj =>
    have hqp := findQty_some hq
    have hbound : i + 1 ≤ qj ∧ qj < min lines.length (i + 8) := by
      obtain ⟨-, -, -, hj1, hj2⟩ := hqp
      omega
    have hs : findSum lines (qj + 1) (min lines.length (i + 8) - (qj + 1)) = none := by
      apply findSum_none
      intro k hk1 hk2
      exact h7 qj hbound.1 hbound.2 hqp.1 hqp.2.1 hqp.2.2.1 k (by omega) (by omega)
    dsimp only
    rw [hs]

/-- C6 witness: a money-only line whose lookahead window is empty (the page
ends right after it) is pushed into the buffer and the scan moves one line. -/
theorem c6_multiline_fallback_witness :
    scanStep [lit "Полка", lit "450 ₽"] 1 { initState with buf := [lit "Полка"] } =
      ({ initState with buf := [lit "Полка", lit "450 ₽"] }, 2) := by
  have h := c6_multiline_fallback [lit "Полка", lit "450 ₽"] 1
      { initState with buf := [lit "Полка"] }
      (by decide) (by decide) (by decide) (by decide) (by decide) (by decide)
      (by
        intro j hj1 hj2
        exfalso
        have hle : min (List.length [lit "Полка", lit "450 ₽"]) (1 + 8) ≤ 2 := by decide
        omega)
  rw [h]
  decide

/-- C2 counterexample: for the document line sequence
`["Стол", "1 500 ₽", "999", "3 000 ₽"]` the money-only line at index 1 is
adjacent to the out-of-range quantity line `"999"`; the step at index 1
emits no item, but the Name Buffer is NOT cleared — the money-only line is
appended to it — and the scan advances to index 2, not past the span. -/
theorem c2_counterexample :
    moneyLine (lit "1 500 ₽") = true ∧
    intLine (lit "999") = true ∧ lineNat (lit "999") = 999 ∧
    (scanStep [lit "Стол", lit "1 500 ₽", lit "999", lit "3 000 ₽"] 1
        { initState with buf := [lit "Стол"] }).1.buf ≠ [] ∧
    (scanStep [lit "Стол", lit "1 500 ₽", lit "999", lit "3 000 ₽"] 1
        { initState with buf := [lit "Стол"] }).1.buf = [lit "Стол", lit "1 500 ₽"] ∧
    (scanStep [lit "Стол", lit "1 500 ₽", lit "999", lit "3 000 ₽"] 1
        { initState with buf := [lit "Стол"] }).2 = 2 ∧
    (scanStep [lit "Стол", lit "1 500 ₽", lit "999", lit "3 000 ₽"] 1
        { initState with buf := [lit "Стол"] }).1.emitted = [] := by
  decide

/-- C2 as amended: when every bare-integer line of a money-only line's
lookahead window is out of range, no item is emitted; the Name Buffer is not
cleared — the money-only line is appended to it — and the scan advances by
exactly one line. -/
theorem c2_out_of_range_qty (lines : List Line) (i : Nat) (st : ScanState)
    (h1 : is_noise (lines.getD i []) = false)
    (h2 : is_header_token (lines.getD i []) = false)
    (h3 : (is_project_total_only (lines.getD i [])
            (if i = 0 then [] else lines.getD (i - 1) []) ||
           is_totals_block (lines.getD i [])) = false)
    (h4 : st.inTotals = false)
    (h5 : pqsSearch (lines.getD i []) = none)
    (h6 : moneyLine (lines.getD i []) = true)
    (h7 : ∀ j, i + 1 ≤ j → j < min lines.length (i + 8) →
          intLine (lines.getD j []) = true →
          ¬(1 ≤ lineNat (lines.getD j []) ∧ lineNat (lines.getD j []) ≤ 500)) :
    scanStep lines i st = ({ st with buf := st.buf ++ [lines.getD i []] }, i + 1) := by
  unfold scanStep
  dsimp only
  rw [if_neg (by rw [h1, h2]; decide), if_neg (by rw [h3]; decide),
      if_neg (by rw [h4]; decide), h5]
  dsimp only
  rw [if_pos h6]
  have hq : findQty lines (i + 1) (min lines.length (i + 8) - (i + 1)) = none := by
    apply findQty_none
    intro k hk1 hk2 hbad
    exact h7 k hk1 (by omega) hbad.1 ⟨hbad.2.1, hbad.2.2⟩
  rw [hq]

/-- C2 amended witness: the step of the counterexample document follows the
amended behaviour. -/
theorem c2_out_of_range_qty_witness :
    scanStep [lit "Стол", lit "1 500 ₽", lit "999", lit "3 000 ₽"] 1
        { initState with buf := [lit "Стол"] } =
      ({ initState with buf := [lit "Стол", lit "1 500 ₽"] }, 2) := by
  have h := c2_out_of_range_qty [lit "Стол", lit "1 500 ₽", lit "999", lit "3 000 ₽"] 1
      { initState with buf := [lit "Стол"] }
      (by decide) (by decide) (by decide) (by decide) (by decide) (by decide)
      (by
        intro j hj1 hj2 hint hrange
        have hle : min (List.length [lit "Стол", lit "1 500 ₽", lit "999", lit "3 000 ₽"])
            (1 + 8) ≤ 4 := by decide
        have : j = 2 ∨ j = 3 := by omega
        rcases this with rfl | rfl
        · exact absurd hrange (by decide)
        · exact absurd hint (by decide))
  rw [h]
  decide

/-- C4 counterexample: a money-only line in a non-trailing buffer position is
NOT removed by the Name Cleaner — the cleaned name still carries it. -/
theorem c4_counterexample :
    moneyLine (lit "450 ₽") = true ∧
    clean_name_from_buffer [lit "450 ₽", lit "Стол"] = lit "450 ₽ Стол" := by
  decide

/-- C4 as amended: the Name Cleaner removes noise, header-vocabulary and
totals lines at any buffer position, but removes money-only, bare-integer
and dimension/weight lines only from the tail of the filtered buffer; the
remaining lines are joined with single spaces and a leading product label
and long numeric identifier are stripped (shown on a concrete buffer). -/
theorem c4_cleaner_removal :
    (∀ (a b : List Line) (l : Line), bufFilterPred l = true →
      clean_name_from_buffer (a ++ l :: b) = clean_name_from_buffer (a ++ b)) ∧
    (∀ (a : List Line) (l : Line), (bufFilterPred l || popCond l) = true →
      clean_name_from_buffer (a ++ [l]) = clean_name_from_buffer a) ∧
    clean_name_from_buffer [lit "Товар 123456 Стол"] = lit "Стол" := by
  have part1 : ∀ (a b : List Line) (l : Line), bufFilterPred l = true →
      clean_name_from_buffer (a ++ l :: b) = clean_name_from_buffer (a ++ b) := by
    intro a b l h
    unfold clean_name_from_buffer
    rw [List.filter_append, List.filter_append, List.filter_cons]
    simp [h]
  refine ⟨part1, ?_, by decide⟩
  intro a l h
  by_cases hf : bufFilterPred l = true
  · simpa using part1 a [] l hf
  · have hp : popCond l = true := by
      rw [Bool.or_eq_true] at h
      rcases h with h2 | h2
      · exact absurd h2 hf
      · exact h2
    unfold clean_name_from_buffer
    dsimp only
    rw [List.filter_append]
    have hl : List.filter (fun ln => !bufFilterPred ln) [l] = [l] := by
      simp [List.filter_cons]
      simpa using hf
    rw [hl, List.reverse_append]
    simp only [List.reverse_cons, List.reverse_nil, List.nil_append,
      List.singleton_append, List.dropWhile_cons]
    rw [hp]
    simp

/-- C4 amended witness: a noise line is dropped from the middle and a
trailing money line is popped, on concrete buffers. -/
theorem c4_cleaner_removal_witness :
    clean_name_from_buffer [lit "Страница: 2", lit "Шкаф"] =
      clean_name_from_buffer [lit "Шкаф"] ∧
    clean_name_from_buffer [lit "Шкаф", lit "449 ₽"] =
      clean_name_from_buffer [lit "Шкаф"] := by
  constructor
  · exact c4_cleaner_removal.1 [] [lit "Шкаф"] (lit "Страница: 2") (by decide)
  · exact c4_cleaner_removal.2.1 [lit "Шкаф"] (lit "449 ₽") (by decide)

/-- C7: the Name Cleaner strips an embedded dimension substring only when it
carries the `мм` length-unit marker: `60x40` survives cleaning while
`607x14x405 мм` is removed whole. -/
theorem c7_dimension_unit_rule :
    clean_name_from_buffer [lit "Полка 60x40"] = lit "Полка 60x40" ∧
    clean_name_from_buffer [lit "Стол 607x14x405 мм", lit "белый"] = lit "Стол белый" ∧
    strip_dims_anywhere (lit "Полка 60x40") = lit "Полка 60x40" ∧
    strip_dims_anywhere (lit "Стол 607x14x405 мм белый") = lit "Стол белый" := by
  decide

/-! ## Article-map lemmas (claims C3, C9) -/

theorem setKey_values {m : List (Line × Line)} {k v : Line}
    (hm : ∀ kv ∈ m, kv.2 ≠ []) (hv : v ≠ []) :
    ∀ kv ∈ setKey m k v, kv.2 ≠ [] := by
  induction m with
  | nil =>
    intro kv h
    rw [show setKey [] k v = [(k, v)] from rfl] at h
    simp at h
    rw [h]
    exact hv
  | cons p t ih =>
    intro kv h
    obtain ⟨a, b⟩ := p
    rw [show setKey ((a, b) :: t) k v =
          (if a = k then (a, v) :: t else (a, b) :: setKey t k v) from rfl] at h
    split at h
    · rcases List.mem_cons.mp h with h | h
      · rw [h]; exact hv
      · exact hm kv (List.mem_cons_of_mem _ h)
    · rcases List.mem_cons.mp h with h | h
      · rw [h]; exact hm (a, b) (by simp)
      · exact ih (fun kv2 h2 => hm kv2 (List.mem_cons_of_mem _ h2)) kv h

theorem rowStep_values {m : List (Line × Line)} {p : Option Line × Option Line}
    (hm : ∀ kv ∈ m, kv.2 ≠ []) : ∀ kv ∈ rowStep m p, kv.2 ≠ [] := by
  obtain ⟨tv, v⟩ := p
  cases tv with
  | none => exact hm
  | some tv =>
    cases v with
    | none => exact hm
    | some v =>
      unfold rowStep
      dsimp only
      split
      · exact hm
      split
      · exact hm
      · rename_i hne
        exact setKey_values hm (fun he => hne (Or.inr he))

theorem foldl_rowStep_values :
    ∀ (pairs : List (Option Line × Option Line)) (m : List (Line × Line)),
    (∀ kv ∈ m, kv.2 ≠ []) → ∀ kv ∈ pairs.foldl rowStep m, kv.2 ≠ [] := by
  intro pairs
  induction pairs with
  | nil => intro m hm; exact hm
  | cons p t ih => intro m hm; exact ih _ (rowStep_values hm)

/-- C3 counterexample: a lookup-table row whose identifier value is the
string "0" is NOT excluded at load time: the built map carries it and the
lookup for the row's product name returns "0", not the empty identifier. -/
theorem c3_counterexample :
    (loadArticleMap
      { openpyxlAvailable := true, artXlsxPath := lit "Art1.xlsx", fileExists := true,
        openResult := Except.ok [[some (lit "Товар"), some (lit "Кастомный ID")],
                                 [some (lit "Стол"), some (lit "0")]],
        artValueColumnEnv := lit "Кастомный ID" }).1 =
      [(normalize_key (lit "Стол"), lit "0")] ∧
    mapGet (loadArticleMap
      { openpyxlAvailable := true, artXlsxPath := lit "Art1.xlsx", fileExists := true,
        openResult := Except.ok [[some (lit "Товар"), some (lit "Кастомный ID")],
                                 [some (lit "Стол"), some (lit "0")]],
        artValueColumnEnv := lit "Кастомный ID" }).1
      (normalize_key (lit "Стол")) = lit "0" ∧
    (lit "0" : Line) ≠ [] := by
  decide

/-- C3 as amended: a row whose identifier cell is missing or whose product
or identifier value normalizes to the empty string is excluded from the map
(every stored identifier is non-empty), but a zero-valued identifier such as
the string "0" is retained, so the lookup for that product name returns "0". -/
theorem c3_empty_values_excluded :
    (∀ (pairs : List (Option Line × Option Line)) (kv : Line × Line),
      kv ∈ rowsToMap pairs → kv.2 ≠ []) ∧
    mapGet (rowsToMap [(some (lit "Стол"), some (lit "0"))])
      (normalize_key (lit "Стол")) = lit "0" := by
  constructor
  · intro pairs kv h
    exact foldl_rowStep_values pairs [] (fun kv2 h2 => (nomatch h2)) kv h
  · decide

/-- C3 amended witness: a row with a `none` value cell and a row with a
blank value are excluded, on a concrete table. -/
theorem c3_empty_values_excluded_witness :
    ((normalize_key (lit "Стол"), ([] : Line)) ∉
      rowsToMap [(some (lit "Стол"), some (lit " ")), (some (lit "Шкаф"), none)]) ∧
    mapGet (rowsToMap [(some (lit "Стол"), some (lit "0"))])
      (normalize_key (lit "Стол")) = lit "0" := by
  constructor
  · intro hmem
    exact c3_empty_values_excluded.1
      [(some (lit "Стол"), some (lit " ")), (some (lit "Шкаф"), none)]
      (normalize_key (lit "Стол"), ([] : Line)) hmem rfl
  · exact c3_empty_values_excluded.2

theorem lastIdx_none {p : Line → Bool} :
    ∀ {i : Nat} {hs : List Line}, (∀ h ∈ hs, p h = false) → lastIdx p i hs = none := by
  intro i hs
  induction hs generalizing i with
  | nil => intro _; rfl
  | cons h t ih =>
    intro hall
    rw [lastIdx, ih (fun x hx => hall x (List.mem_cons_of_mem _ hx))]
    rw [hall h (by simp)]
    rfl

theorem firstIdx_none {p : Line → Bool} :
    ∀ {i : Nat} {hs : List Line}, (∀ h ∈ hs, p h = false) → firstIdx p i hs = none := by
  intro i hs
  induction hs generalizing i with
  | nil => intro _; rfl
  | cons h t ih =>
    intro hall
    rw [firstIdx, if_neg (by rw [hall h (by simp)]; decide)]
    exact ih (fun x hx => hall x (List.mem_cons_of_mem _ hx))

/-- C9: the structural failures of the lookup-table load never escape as
exceptions: each returns an empty map and its descriptive status string —
`openpyxl_not_installed`, `file_not_found:<path>`, `cannot_open:<detail>`,
and `bad_header:<detail>` when the value column is absent — and the used
column name stays blank, so parsing proceeds with all identifiers empty. -/
theorem c9_structural_failures (env : ArtEnv) :
    (env.openpyxlAvailable = false →
      loadArticleMap env = ([], lit "openpyxl_not_installed", [])) ∧
    (env.openpyxlAvailable = true → env.fileExists = false →
      loadArticleMap env = ([], lit "file_not_found:" ++ env.artXlsxPath, [])) ∧
    (∀ e, env.openpyxlAvailable = true → env.fileExists = true →
      env.openResult = .error e →
      loadArticleMap env = ([], lit "cannot_open:" ++ e, [])) ∧
    (∀ rows, env.openpyxlAvailable = true → env.fileExists = true →
      env.openResult = .ok rows →
      (∀ h ∈ (rows.headD []).map (fun c => normSpace (c.getD [])),
        h ≠ normSpace env.artValueColumnEnv ∧ h.map pyLower ≠ lit "артикул") →
      loadArticleMap env =
        ([], lit "bad_header:no колонка " ++ sq ++ normSpace env.artValueColumnEnv ++ sq ++
             lit " (и fallback " ++ sq ++ lit "Артикул" ++ sq ++ lit ")", [])) := by
  refine ⟨?_, ?_, ?_, ?_⟩
  · intro h
    unfold loadArticleMap
    rw [if_pos (by rw [h]; rfl)]
  · intro h1 h2
    unfold loadArticleMap
    rw [if_neg (by rw [h1]; decide), if_pos (by rw [h2]; rfl)]
  · intro e h1 h2 h3
    unfold loadArticleMap
    rw [if_neg (by rw [h1]; decide), if_neg (by rw [h2]; decide), h3]
  · intro rows h1 h2 h3 hhead
    unfold loadArticleMap
    rw [if_neg (by rw [h1]; decide), if_neg (by rw [h2]; decide), h3]
    dsimp only
    rw [lastIdx_none (p := fun h => h == normSpace env.artValueColumnEnv)
          (fun x hx => by
            have := (hhead x hx).1
            rw [beq_eq_false_iff_ne]
            exact this),
        firstIdx_none (p := fun h => h.map pyLower == lit "артикул")
          (fun x hx => by
            have := (hhead x hx).2
            rw [beq_eq_false_iff_ne]
            exact this)]

/-- C9 witness: the four failure shapes on concrete environments. -/
theorem c9_structural_failures_witness :
    loadArticleMap
      { openpyxlAvailable := false, artXlsxPath := lit "Art1.xlsx", fileExists := false,
        openResult := Except.error ([] : Line), artValueColumnEnv := lit "Кастомный ID" } =
      ([], lit "openpyxl_not_installed", []) ∧
    loadArticleMap
      { openpyxlAvailable := true, artXlsxPath := lit "Art1.xlsx", fileExists := false,
        openResult := Except.error ([] : Line), artValueColumnEnv := lit "Кастомный ID" } =
      ([], lit "file_not_found:" ++ lit "Art1.xlsx", []) ∧
    loadArticleMap
      { openpyxlAvailable := true, artXlsxPath := lit "Art1.xlsx", fileExists := true,
        openResult := Except.error (lit "oops"), artValueColumnEnv := lit "Кастомный ID" } =
      ([], lit "cannot_open:" ++ lit "oops", []) ∧
    loadArticleMap
      { openpyxlAvailable := true, artXlsxPath := lit "Art1.xlsx", fileExists := true,
        openResult := Except.ok [[some (lit "Товар"), some (lit "Цена")]],
        artValueColumnEnv := lit "Кастомный ID" } =
      ([], lit "bad_header:no колонка " ++ sq ++ normSpace (lit "Кастомный ID") ++ sq ++
           lit " (и fallback " ++ sq ++ lit "Артикул" ++ sq ++ lit ")", []) := by
  refine ⟨?_, ?_, ?_, ?_⟩
  · exact (c9_structural_failures _).1 rfl
  · exact (c9_structural_failures _).2.1 rfl rfl
  · exact (c9_structural_failures _).2.2.1 (lit "oops") rfl rfl rfl
  · exact (c9_structural_failures _).2.2.2 [[some (lit "Товар"), some (lit "Цена")]]
      rfl rfl rfl (by decide)

end BauPdfCsv
